import Mathlib

/-!
# Verification of the systematic-review pipeline (`duplicados12.py`)

A shallow embedding of the record pipeline in `src/duplicados12.py`
(normalization → aggregation → duplicate resolution → coherence scoring →
selection), together with theorems settling the specification claims.

Conventions of the embedding:
* A Python record dict (from `rispy` / `bibtexparser`) is `RawRecord`:
  the three fields consulted by the code, each an optional string
  (`none` = key absent).  Both parsers produce string field values.
* A row of the normalized pandas frame (`{'Título': …, 'Resumen': …,
  'Fecha': int(…)}`) is `NormRecord` with ASCII field names
  `titulo`/`resumen`/`fecha`.
* Python exceptions are `Except String`; a caught exception is handled at
  the same place the source `try`/`except` sits.
* Real-valued quantities (tf-idf weights, cosine similarity) are kept in
  exact symbolic form; see `TfidfCos` below.
-/

/-- A raw parsed bibliographic record: the `title`, `abstract` and `year`
fields the code reads via `record.get(k, None)`; `none` models an absent
key, `some s` a string value (both `rispy` and `bibtexparser` yield
strings for these fields). -/
structure RawRecord where
  title : Option String
  abstract : Option String
  year : Option String
deriving DecidableEq, Repr

/-- A normalized record `{'Título': title, 'Resumen': abstract,
'Fecha': int(year)}` as built by `filter_records` / `parse_bib`. -/
structure NormRecord where
  titulo : String
  resumen : String
  fecha : Int
deriving DecidableEq, Repr

/-- Python truthiness of an optional string field: `None` and `''` are
falsy, every other string is truthy. -/
def truthy : Option String → Bool
  | none => false
  | some s => !s.isEmpty

/-- Value of a nonempty digit run, with single underscores permitted
between digits as in Python 3 integer literals.  `acc` is the value of the
digits already consumed. -/
def digitsCore (acc : Nat) : List Char → Option Nat
  | [] => some acc
  | c :: cs =>
    if c.isDigit then digitsCore (10 * acc + (c.toNat - 48)) cs
    else if c = '_' then
      match cs with
      | d :: cs2 => if d.isDigit then digitsCore (10 * acc + (d.toNat - 48)) cs2 else none
      | [] => none
    else none

/-- Value of a digit run that must start with a digit. -/
def digitsVal : List Char → Option Nat
  | [] => none
  | c :: cs => if c.isDigit then digitsCore (c.toNat - 48) cs else none

/-- Whitespace as stripped by Python's `int()` (ASCII range). -/
def isPySpace (c : Char) : Bool :=
  c == ' ' || c == '\t' || c == '\n' || c == '\r' || c == '\x0b' || c == '\x0c'

/-- Strip leading and trailing whitespace. -/
def stripChars (cs : List Char) : List Char :=
  ((cs.dropWhile isPySpace).reverse.dropWhile isPySpace).reverse

/-- Python `int(s)` on a string: surrounding whitespace stripped, optional
sign, base-10 digits (single interior underscores allowed); `none` models
the `ValueError` raised on any other input. -/
def pyInt (s : String) : Option Int :=
  match stripChars s.toList with
  | '+' :: cs => (digitsVal cs).map (fun n => (n : Int))
  | '-' :: cs => (digitsVal cs).map (fun n => -(n : Int))
  | cs => (digitsVal cs).map (fun n => (n : Int))

/-- Embeds `filter_records` (duplicados12.py lines 34–48): partition the raw
records of one parsed file into valid normalized rows and invalid raw
records, in input order.  `int(year)` on a truthy but unconvertible year
raises `ValueError`, aborting the whole call (the exception propagates to
the caller); this is the `.error` branch. -/
def filterRecords : List RawRecord → Except String (List NormRecord × List RawRecord)
  | [] => .ok ([], [])
  | r :: rs =>
    if truthy r.title && truthy r.abstract && truthy r.year then
      match pyInt (r.year.getD "") with
      | some n =>
        match filterRecords rs with
        | .ok (v, inv) => .ok (⟨r.title.getD "", r.abstract.getD "", n⟩ :: v, inv)
        | .error e => .error e
      | none => .error ("ValueError: invalid literal for int() with base 10: " ++ r.year.getD "")
    else
      match filterRecords rs with
      | .ok (v, inv) => .ok (v, r :: inv)
      | .error e => .error e

/-- One uploaded file as seen after the external format parser ran:
either the parser raised on the whole file (`malformed`) or it produced a
sequence of raw records. -/
inductive FileData where
  | malformed
  | parsed (records : List RawRecord)
deriving DecidableEq, Repr

/-- A minimal model of the pandas frames built by the script: `hasCols`
records whether the `Título`/`Resumen`/`Fecha` columns exist
(`pd.DataFrame([])` has no columns; a frame built from at least one row
dict has all three), `rows` the row list. -/
structure PdDataFrame where
  hasCols : Bool
  rows : List NormRecord
deriving DecidableEq, Repr

/-- Embeds `pd.DataFrame()` / `pd.DataFrame([])`: empty, no columns. -/
def pdEmpty : PdDataFrame := ⟨false, []⟩

/-- Embeds `pd.DataFrame(list_of_row_dicts)`: columns exist iff the list is
nonempty. -/
def pdOfRecords (rs : List NormRecord) : PdDataFrame := ⟨!rs.isEmpty, rs⟩

/-- Embeds `pd.concat([a, b])` (with `reset_index(drop=True)` a no-op here):
rows appended, columns the union of both frames' columns. -/
def pdConcat (a b : PdDataFrame) : PdDataFrame := ⟨a.hasCols || b.hasCols, a.rows ++ b.rows⟩

/-- Embeds `parse_ris` (lines 51–66): per file, run the external parser and
`filter_records`; any exception inside the `try` (a parse failure, or the
`ValueError` escaping `filter_records`) is caught per file, so that file
extends neither the valid nor the invalid accumulator.  Returns
`(pd.DataFrame(valid_records), len(invalid_records))`. -/
def parseRis (files : List FileData) : PdDataFrame × Nat :=
  let step := fun (acc : List NormRecord × List RawRecord) (f : FileData) =>
    match f with
    | .malformed => acc
    | .parsed rs =>
      match filterRecords rs with
      | .ok (v, inv) => (acc.1 ++ v, acc.2 ++ inv)
      | .error _ => acc
  let res := files.foldl step ([], [])
  (pdOfRecords res.1, res.2.length)

/-- The entry loop inside `parse_bib`'s `try` (lines 78–86): entries are
appended to the shared accumulators one by one; when `int(year)` raises on
an entry, the entries appended so far are kept (they were already appended
to the outer lists) and the rest of the file is abandoned. -/
def bibEntryLoop : List RawRecord → List NormRecord × List RawRecord
  | [] => ([], [])
  | e :: es =>
    if truthy e.title && truthy e.abstract && truthy e.year then
      match pyInt (e.year.getD "") with
      | some n =>
        let rest := bibEntryLoop es
        (⟨e.title.getD "", e.abstract.getD "", n⟩ :: rest.1, rest.2)
      | none => ([], [])
    else
      let rest := bibEntryLoop es
      (rest.1, e :: rest.2)

/-- Embeds `parse_bib` (lines 69–90): like `parse_ris` but the per-entry loop
appends directly to the outer accumulators, so a file whose processing
raises mid-way still contributes the entries handled before the raise. -/
def parseBib (files : List FileData) : PdDataFrame × Nat :=
  let step := fun (acc : List NormRecord × List RawRecord) (f : FileData) =>
    match f with
    | .malformed => acc
    | .parsed es =>
      let r := bibEntryLoop es
      (acc.1 ++ r.1, acc.2 ++ r.2)
  let res := files.foldl step ([], [])
  (pdOfRecords res.1, res.2.length)

/-- Format of an uploaded file, decided in the main loop by
`file_name.endswith('.ris')` / `.endswith('.bib')` (the uploader only
admits these two extensions). -/
inductive FileFmt where
  | ris
  | bib
deriving DecidableEq, Repr

/-- One uploaded file: its format tag and its parsed content. -/
structure UpFile where
  fmt : FileFmt
  data : FileData
deriving DecidableEq, Repr

/-- One iteration of the per-file upload loop (lines 153–162): a `.ris`
file is parsed by `parse_ris([file])` and appended to `valid_ris_df`, a
`.bib` file by `parse_bib([file])` onto `valid_bib_df`; the invalid count
accumulates into `total_invalid`. -/
def aggStep (acc : PdDataFrame × PdDataFrame × Nat) (f : UpFile) :
    PdDataFrame × PdDataFrame × Nat :=
  match f.fmt with
  | .ris =>
    let r := parseRis [f.data]
    (pdConcat acc.1 r.1, acc.2.1, acc.2.2 + r.2)
  | .bib =>
    let r := parseBib [f.data]
    (acc.1, pdConcat acc.2.1 r.1, acc.2.2 + r.2)

/-- The per-file upload loop plus `pd.concat` (lines 148–164): `.ris`
files accumulate into `valid_ris_df`, `.bib` files into `valid_bib_df`,
each `pd.concat`-appended per file in arrival order; afterwards
`combined_df = pd.concat([valid_ris_df, valid_bib_df])` and the invalid
counts are summed.  Returns `(combined_df, total_invalid)`. -/
def aggregate (files : List UpFile) : PdDataFrame × Nat :=
  let res := files.foldl aggStep (pdEmpty, pdEmpty, 0)
  (pdConcat res.1 res.2.1, res.2.2)

/-- The valid rows one uploaded file contributes, per its format's
parser. -/
def fileValidRows (f : UpFile) : List NormRecord :=
  match f.fmt with
  | .ris => (parseRis [f.data]).1.rows
  | .bib => (parseBib [f.data]).1.rows

/-- Modelled from the spec: "insertion order = input arrival order (file
order, then within-file record order)" — the aggregated collection the
specification describes, concatenating each file's valid records in
upload order regardless of format. -/
def arrivalOrderRows (files : List UpFile) : List NormRecord :=
  files.flatMap fileValidRows

/-- The composite duplicate key of a row: its (`Título`, `Resumen`)
pair. -/
def recKey (r : NormRecord) : String × String := (r.titulo, r.resumen)

/-- The composite duplicate key: exact, case-sensitive equality on
(`Título`, `Resumen`). -/
def sameKey (a b : NormRecord) : Bool :=
  a.titulo == b.titulo && a.resumen == b.resumen

/-- Number of rows of `df` sharing `r`'s (title, abstract) key. -/
def countKey (df : List NormRecord) (r : NormRecord) : Nat :=
  (df.filter (fun s => sameKey s r)).length

/-- Row-level semantics of `df.duplicated(subset=['Título','Resumen'],
keep=False)` filtering (line 94): a row is kept iff some other row shares
its key, i.e. iff its key occurs at least twice in `df`. -/
def findDuplicatesL (df : List NormRecord) : List NormRecord :=
  df.filter (fun r => decide (2 ≤ countKey df r))

/-- Embeds `find_duplicates` (lines 93–95) at the frame level:
`df.duplicated(subset=[…])` raises `KeyError` when the subset columns do
not exist (as on the column-less empty frame). -/
def findDuplicatesDF (df : PdDataFrame) : Except String PdDataFrame :=
  if df.hasCols then .ok ⟨df.hasCols, findDuplicatesL df.rows⟩
  else .error "KeyError: Index(['Título', 'Resumen'], dtype='object')"

/-- Accumulator form of `drop_duplicates(subset=['Título','Resumen'],
keep='first')` (line 181): a row is kept iff its key was not seen on an
earlier row. -/
def dropDupAux (seen : List (String × String)) : List NormRecord → List NormRecord
  | [] => []
  | r :: rs =>
    if recKey r ∈ seen then dropDupAux seen rs
    else r :: dropDupAux (recKey r :: seen) rs

/-- Embeds `drop_duplicates(subset=['Título','Resumen'], keep='first')`. -/
def dropDuplicatesL (df : List NormRecord) : List NormRecord := dropDupAux [] df

/-- The Duplicate Resolver as the main flow composes it (lines 173–183):
`duplicateGroup = find_duplicates(df)`, and `drop_duplicates` is applied
only when that group is nonempty. -/
def duplicateResolver (df : List NormRecord) : List NormRecord × List NormRecord :=
  let duplicates := findDuplicatesL df
  (duplicates, if duplicates.isEmpty then df else dropDuplicatesL df)

/-- Does `needle` occur at the start of `hay`? -/
def occursAtHead (needle hay : List Char) : Bool :=
  match needle, hay with
  | [], _ => true
  | _ :: _, [] => false
  | n :: ns, h :: hs => n == h && occursAtHead ns hs

/-- Does `needle` occur anywhere in `hay`? -/
def occursIn (needle hay : List Char) : Bool :=
  match hay with
  | [] => needle.isEmpty
  | _ :: hs => occursAtHead needle hay || occursIn needle hs

/-- Embeds `Series.str.contains(pat, case=False)` for a literal pattern:
case-insensitive substring test (ASCII case folding; the two patterns used
are plain lowercase words, so `regex=True` is substring search here). -/
def containsCI (hay pat : String) : Bool :=
  occursIn (pat.toList.map Char.toLower) (hay.toList.map Char.toLower)

/-- The keyword predicate of `apply_selection_criteria` (line 116). -/
def keywordPred (resumen : String) : Bool :=
  containsCI resumen "portfolio" || containsCI resumen "optimization"

/-- The date predicate of `apply_selection_criteria` (line 117). -/
def datePred (fecha : Int) : Bool :=
  decide (2017 ≤ fecha) && decide (fecha ≤ 2024)

/-- Embeds `apply_selection_criteria` (lines 115–118), generic in the row type of
the frame it receives (in the main flow the rows carry the extra
`Similitud` column): first the keyword filter on the `Resumen` column,
then the date filter on the `Fecha` column of the kept rows. -/
def applySelectionCriteria {ρ : Type} (resumenOf : ρ → String) (fechaOf : ρ → Int)
    (df : List ρ) : List ρ :=
  let keywordFiltered := df.filter (fun r => keywordPred (resumenOf r))
  keywordFiltered.filter (fun r => datePred (fechaOf r))

/-! ## The Coherence Scorer

`check_similarity` (lines 98–112) computes, per record, the tf-idf cosine
similarity of the two-document corpus `[Título, Resumen]` using
`TfidfVectorizer(stop_words='english')` with its defaults
(`lowercase=True`, `token_pattern=r"(?u)\b\w\w+\b"`, `smooth_idf=True`,
`norm='l2'`).  With a 2-document corpus the idf of a term is `1` when the
term occurs in both documents (df = 2) and `ι = 1 + ln(3/2)` when it
occurs in one (df = 1).  After l2-normalization the cosine of the two rows
is `num / sqrt((tShared + κ·tOnly) · (aShared + κ·aOnly))` with
`κ = ι²` and the four components integer-valued; only shared terms (idf 1)
contribute to the numerator, so `num` is an exact integer and the
similarity is `0` exactly when `num = 0`.  The embedding keeps this exact
skeleton (`TfidfCos`) instead of the irrational float. -/

/-- Python's `\w` (ASCII range): letters, digits, underscore. -/
def isWordChar (c : Char) : Bool := c.isAlphanum || c == '_'

/-- Maximal runs of word characters, in order (the matches of
`\b\w\w+\b` before the length-≥-2 filter). -/
def tokenRuns : List Char → List (List Char)
  | [] => []
  | [c] => if isWordChar c then [[c]] else []
  | c :: d :: rest =>
    let tail := tokenRuns (d :: rest)
    if isWordChar c then
      if isWordChar d then
        match tail with
        | r :: rs => (c :: r) :: rs
        | [] => [[c]]
      else [c] :: tail
    else tail

/-- The vectorizer's tokenizer: lowercase, then the maximal word-character
runs of at least two characters. -/
def tokenize (s : String) : List String :=
  ((tokenRuns (s.toList.map Char.toLower)).filter (fun r => decide (2 ≤ r.length))).map
    (fun r => String.mk r)

/-- Reproduces `sklearn.feature_extraction.text.ENGLISH_STOP_WORDS`: the frozen
Glasgow IR stop list shipped with scikit-learn, applied to tokens after
tokenization. -/
def englishStopWords : List String :=
  ["a", "about", "above", "across", "after", "afterwards", "again", "against",
   "all", "almost", "alone", "along", "already", "also", "although", "always",
   "am", "among", "amongst", "amoungst", "amount", "an", "and", "another",
   "any", "anyhow", "anyone", "anything", "anyway", "anywhere", "are",
   "around", "as", "at", "back", "be", "became", "because", "become",
   "becomes", "becoming", "been", "before", "beforehand", "behind", "being",
   "below", "beside", "besides", "between", "beyond", "bill", "both",
   "bottom", "but", "by", "call", "can", "cannot", "cant", "co", "con",
   "could", "couldnt", "cry", "de", "describe", "detail", "do", "done",
   "down", "due", "during", "each", "eg", "eight", "either", "eleven",
   "else", "elsewhere", "empty", "enough", "etc", "even", "ever", "every",
   "everyone", "everything", "everywhere", "except", "few", "fifteen",
   "fifty", "fill", "find", "fire", "first", "five", "for", "former",
   "formerly", "forty", "found", "four", "from", "front", "full", "further",
   "get", "give", "go", "had", "has", "hasnt", "have", "he", "hence", "her",
   "here", "hereafter", "hereby", "herein", "hereupon", "hers", "herself",
   "him", "himself", "his", "how", "however", "hundred", "i", "ie", "if",
   "in", "inc", "indeed", "interest", "into", "is", "it", "its", "itself",
   "keep", "last", "latter", "latterly", "least", "less", "ltd", "made",
   "many", "may", "me", "meanwhile", "might", "mill", "mine", "more",
   "moreover", "most", "mostly", "move", "much", "must", "my", "myself",
   "name", "namely", "neither", "never", "nevertheless", "next", "nine",
   "no", "nobody", "none", "noone", "nor", "not", "nothing", "now",
   "nowhere", "of", "off", "often", "on", "once", "one", "only", "onto",
   "or", "other", "others", "otherwise", "our", "ours", "ourselves", "out",
   "over", "own", "part", "per", "perhaps", "please", "put", "rather", "re",
   "same", "see", "seem", "seemed", "seeming", "seems", "serious",
   "several", "she", "should", "show", "side", "since", "sincere", "six",
   "sixty", "so", "some", "somehow", "someone", "something", "sometime",
   "sometimes", "somewhere", "still", "such", "system", "take", "ten",
   "than", "that", "the", "their", "them", "themselves", "then", "thence",
   "there", "thereafter", "thereby", "therefore", "therein", "thereupon",
   "these", "they", "thick", "thin", "third", "this", "those", "though",
   "three", "through", "throughout", "thru", "thus", "to", "together",
   "too", "top", "toward", "towards", "twelve", "twenty", "two", "un",
   "under", "until", "up", "upon", "us", "very", "via", "was", "we",
   "well", "were", "what", "whatever", "when", "whence", "whenever",
   "where", "whereafter", "whereas", "whereby", "wherein", "whereupon",
   "wherever", "whether", "which", "while", "whither", "who", "whoever",
   "whole", "whom", "whose", "why", "will", "with", "within", "without",
   "would", "yet", "you", "your", "yours", "yourself", "yourselves"]

/-- The vectorizer's analyzer: tokenize, then drop stop words
(multiplicity and order of the remaining tokens preserved). -/
def analyzedTokens (s : String) : List String :=
  (tokenize s).filter (fun t => !(englishStopWords.contains t))

/-- Strict lexicographic comparison of character lists by code point
(Python's string order, used when sklearn sorts the vocabulary). -/
def lexLt : List Char → List Char → Bool
  | [], [] => false
  | [], _ :: _ => true
  | _ :: _, [] => false
  | a :: as, b :: bs => decide (a < b) || (a == b && lexLt as bs)

/-- Compares `x ≤ y` on strings by code point. -/
def strLe (x y : String) : Bool := !(lexLt y.toList x.toList)

/-- Insert into a sorted list of strings (ascending). -/
def insertSorted (x : String) : List String → List String
  | [] => [x]
  | y :: ys => if strLe x y then x :: y :: ys else y :: insertSorted x ys

/-- Ascending insertion sort (the vectorizer stores its vocabulary
sorted; no computed quantity depends on this order). -/
def sortStrings : List String → List String
  | [] => []
  | x :: xs => insertSorted x (sortStrings xs)

/-- The fitted state of a `TfidfVectorizer`: `vocabulary_` (sorted
distinct non-stopword terms of the fitted corpus) and the document
frequency of each, which determines `idf_`. -/
structure VectorizerState where
  vocab : List String
  docFreq : List Nat
deriving DecidableEq, Repr

/-- Embeds `TfidfVectorizer(stop_words='english')`: the constructor yields an
unfitted vectorizer (no vocabulary learned yet). -/
def newVectorizer : VectorizerState := ⟨[], []⟩

/-- The output of `fit_transform(texts)`, kept exact: the learned
vocabulary and the raw term count (tf) of each vocabulary term per
document.  The real matrix entry for term `t` in document `d` is
`tf · idf_t` l2-normalized per row; tf and df (hence idf) are retained
exactly here, which determines that matrix up to the fixed real map. -/
structure TfidfMatrix where
  vocab : List String
  rows : List (List Nat)
deriving DecidableEq, Repr

/-- Embeds `vectorizer.fit_transform(docs)`: `fit` discards any previously
learned state and re-learns vocabulary and document frequencies from
`docs` alone (which is why the incoming state `vz` is not read), then
`transform` counts the vocabulary terms per document.  An empty
vocabulary raises `ValueError`. -/
def fitTransform (vz : VectorizerState) (docs : List String) :
    Except String (VectorizerState × TfidfMatrix) :=
  let analyzed := docs.map analyzedTokens
  let vocab := sortStrings analyzed.flatten.dedup
  if vocab.isEmpty then
    .error "ValueError: empty vocabulary; perhaps the documents only contain stop words"
  else
    let rows := analyzed.map (fun d => vocab.map (fun t => d.count t))
    let docFreq := vocab.map (fun t => (analyzed.filter (fun d => d.contains t)).length)
    let _ := vz
    .ok (⟨vocab, docFreq⟩, ⟨vocab, rows⟩)

/-- The exact skeleton of the cosine similarity of the two tf-idf rows:
the similarity equals `num / sqrt((tShared + κ·tOnly) · (aShared + κ·aOnly))`
(`κ = (1 + ln(3/2))² > 1`), and is `0` by convention when a row is all
zero (sklearn's l2-normalization leaves zero rows zero).  In particular
the similarity is exactly `0` iff `num = 0`, and positive otherwise. -/
structure TfidfCos where
  num : Nat
  tShared : Nat
  tOnly : Nat
  aShared : Nat
  aOnly : Nat
deriving DecidableEq, Repr

/-- Embeds `cosine_similarity(tfidf_matrix[0:1], tfidf_matrix[1:2])[0][0]` for a
two-row matrix, as the exact skeleton: shared terms (present in both
rows, idf 1) feed the numerator and the `Shared` norm components; terms
private to one row feed that row's `Only` component (weighted by κ in the
real norm). -/
def cosineTA (m : TfidfMatrix) : TfidfCos :=
  let tRow := m.rows.getD 0 []
  let aRow := m.rows.getD 1 []
  let pairs := tRow.zip aRow
  { num := (pairs.map (fun p => p.1 * p.2)).sum
    tShared := ((pairs.filter (fun p => decide (0 < p.1) && decide (0 < p.2))).map
      (fun p => p.1 * p.1)).sum
    tOnly := ((pairs.filter (fun p => decide (0 < p.1) && decide (p.2 = 0))).map
      (fun p => p.1 * p.1)).sum
    aShared := ((pairs.filter (fun p => decide (0 < p.1) && decide (0 < p.2))).map
      (fun p => p.2 * p.2)).sum
    aOnly := ((pairs.filter (fun p => decide (p.1 = 0) && decide (0 < p.2))).map
      (fun p => p.2 * p.2)).sum }

/-- The body of the scoring loop (lines 102–106) for one record: fit the
vectorizer on the record's own `[Título, Resumen]` pair and take the
cosine of the two resulting rows. -/
def similarityPair (t a : String) : Except String TfidfCos :=
  match fitTransform newVectorizer [t, a] with
  | .ok p => .ok (cosineTA p.2)
  | .error e => .error e

/-- The scoring loop of `check_similarity` (lines 99–106) as written: one
vectorizer object is created before the loop and its (refitted) state is
threaded through the iterations; an exception at any record propagates
out of `check_similarity`. -/
def similaritiesLoop (vectorizer : VectorizerState) :
    List NormRecord → Except String (List TfidfCos)
  | [] => .ok []
  | r :: rs =>
    match fitTransform vectorizer [r.titulo, r.resumen] with
    | .error e => .error e
    | .ok (vz2, m) =>
      match similaritiesLoop vz2 rs with
      | .error e => .error e
      | .ok rest => .ok (cosineTA m :: rest)

/-- Modelled from the spec: the per-record pure map the specification
says the loop is equivalent to — "a pure per-record function
(title, abstract) → similarity" applied to each record independently,
with the first failure aborting as in the source. -/
def similaritiesMap (rs : List NormRecord) : Except String (List TfidfCos) :=
  rs.mapM (fun r => similarityPair r.titulo r.resumen)

/-- Vocabulary terms shared by title and abstract (the df = 2 terms):
used to state the degenerate-similarity claims. -/
def sharedVocab (t a : String) : List String :=
  (analyzedTokens t).dedup.filter (fun x => (analyzedTokens a).contains x)

/-- Score every row of the frame (the `similarities` list), generic in
the score representation. -/
def scoreRows {α : Type} (score : String → String → Except String α)
    (df : List NormRecord) : Except String (List α) :=
  df.mapM (fun r => score r.titulo r.resumen)

/-- Embeds `check_similarity` (lines 98–112) with the numeric score and
threshold as parameters (the real values live in ℝ; every claim about the
partition is independent of them): compute the per-row scores, attach
them as the `Similitud` column, and split by
`Similitud < threshold` / `Similitud >= threshold`. -/
def checkSimilarityWith {α : Type} [LinearOrder α]
    (score : String → String → Except String α) (threshold : α)
    (df : List NormRecord) :
    Except String (List (NormRecord × α) × List (NormRecord × α)) :=
  match scoreRows score df with
  | .error e => .error e
  | .ok sims =>
    let scored := df.zip sims
    .ok (scored.filter (fun p => decide (p.2 < threshold)),
         scored.filter (fun p => decide (threshold ≤ p.2)))

/-- The counters and collections the run reports (the `st.write` /
`st.dataframe` surface of lines 165–213).  Stages skipped by the source's
emptiness guards leave their collections empty. -/
structure MainResult (α : Type) where
  totalRecords : Nat
  totalInvalid : Nat
  validCount : Nat
  duplicatesCount : Nat
  afterDedup : List NormRecord
  incoherent : List (NormRecord × α)
  coherent : List (NormRecord × α)
  selected : List (NormRecord × α)
deriving DecidableEq, Repr

/-- The body of the `if uploaded_files:` block (lines 148–213): aggregate
the per-file results, search duplicates (`find_duplicates` is called
unconditionally on `combined_df`), drop duplicates only when some were
found, and run stages 4–5 under the source's nonemptiness guards.  Any
uncaught exception (`KeyError` from `duplicated` on a column-less frame,
`ValueError` from an empty vocabulary) aborts the run. -/
def mainFlow {α : Type} [LinearOrder α]
    (score : String → String → Except String α) (threshold : α)
    (files : List UpFile) : Except String (MainResult α) :=
  let agg := aggregate files
  let combined := agg.1
  let totalInvalid := agg.2
  let totalRecords := combined.rows.length + totalInvalid
  match findDuplicatesDF combined with
  | .error e => .error e
  | .ok duplicatesDF =>
    let afterDedup :=
      if duplicatesDF.rows.isEmpty then combined.rows else dropDuplicatesL combined.rows
    if afterDedup.isEmpty then
      .ok ⟨totalRecords, totalInvalid, combined.rows.length, duplicatesDF.rows.length,
           afterDedup, [], [], []⟩
    else
      match checkSimilarityWith score threshold afterDedup with
      | .error e => .error e
      | .ok (incoherent, coherent) =>
        let selected :=
          if coherent.isEmpty then []
          else applySelectionCriteria (fun p => p.1.resumen) (fun p => p.1.fecha) coherent
        .ok ⟨totalRecords, totalInvalid, combined.rows.length, duplicatesDF.rows.length,
             afterDedup, incoherent, coherent, selected⟩

/-! ## General lemmas about the embedded operations -/

theorem sameKey_iff {a b : NormRecord} : sameKey a b = true ↔ recKey a = recKey b := by
  simp [sameKey, recKey, Prod.ext_iff]

theorem sameKey_self (a : NormRecord) : sameKey a a = true := by
  simp [sameKey]

theorem sameKey_eq_beq (a b : NormRecord) : sameKey a b = (recKey a == recKey b) := by
  cases h : recKey a == recKey b
  · have : ¬ recKey a = recKey b := by
      intro he
      simp [he] at h
    simp only [sameKey_iff] at *
    exact Bool.eq_false_iff.2 (fun hc => this (sameKey_iff.1 hc))
  · exact sameKey_iff.2 (by simpa using h)

theorem length_filter_add_length_filter_not {β : Type} (l : List β) (p : β → Bool) :
    (l.filter p).length + (l.filter (fun x => !p x)).length = l.length := by
  induction l with
  | nil => rfl
  | cons x xs ih => cases h : p x <;> simp [List.filter_cons, h] <;> omega

theorem exceptMapM_cons {β γ : Type} (f : β → Except String γ) (x : β) (xs : List β) :
    (x :: xs).mapM f =
      match f x with
      | .error e => .error e
      | .ok y =>
        match xs.mapM f with
        | .error e => .error e
        | .ok ys => .ok (y :: ys) := by
  rw [List.mapM_cons]
  cases f x <;> cases xs.mapM f <;> rfl

theorem exceptMapM_ok_length {β γ : Type} (f : β → Except String γ) :
    ∀ {l : List β} {ys : List γ}, l.mapM f = .ok ys → ys.length = l.length := by
  intro l
  induction l with
  | nil =>
    intro ys h
    simp only [List.mapM_nil] at h
    cases h
    rfl
  | cons x xs ih =>
    intro ys h
    rw [exceptMapM_cons] at h
    cases hf : f x with
    | error e => rw [hf] at h; cases h
    | ok y =>
      rw [hf] at h
      cases hm : xs.mapM f with
      | error e => rw [hm] at h; cases h
      | ok zs =>
        rw [hm] at h
        cases h
        simp [ih hm]

theorem length_insertSorted (x : String) : ∀ l : List String,
    (insertSorted x l).length = l.length + 1 := by
  intro l
  induction l with
  | nil => rfl
  | cons y ys ih => cases h : strLe x y <;> simp [insertSorted, h, ih]

theorem sortStrings_eq_nil_iff {l : List String} : sortStrings l = [] ↔ l = [] := by
  cases l with
  | nil => simp [sortStrings]
  | cons x xs =>
    simp only [sortStrings]
    constructor
    · intro h
      have := congrArg List.length h
      simp [length_insertSorted] at this
    · intro h
      cases h

theorem mem_insertSorted {x y : String} : ∀ {l : List String},
    y ∈ insertSorted x l ↔ y = x ∨ y ∈ l := by
  intro l
  induction l with
  | nil => simp [insertSorted]
  | cons z zs ih =>
    cases h : strLe x z
    · simp only [insertSorted, h, Bool.false_eq_true, if_false, List.mem_cons, ih]
      tauto
    · simp only [insertSorted, h, if_true, List.mem_cons]

theorem mem_sortStrings {y : String} : ∀ {l : List String},
    y ∈ sortStrings l ↔ y ∈ l := by
  intro l
  induction l with
  | nil => simp [sortStrings]
  | cons x xs ih => simp [sortStrings, mem_insertSorted, ih]

theorem dropDupAux_sublist : ∀ (seen : List (String × String)) (l : List NormRecord),
    (dropDupAux seen l).Sublist l := by
  intro seen l
  induction l generalizing seen with
  | nil => simp [dropDupAux]
  | cons x xs ih =>
    simp only [dropDupAux]
    by_cases h : recKey x ∈ seen
    · simp only [if_pos h]
      exact (ih seen).cons x
    · simp only [if_neg h]
      exact (ih (recKey x :: seen)).cons₂ x

theorem mem_dropDupAux : ∀ {seen : List (String × String)} {l : List NormRecord}
    {r : NormRecord}, r ∈ dropDupAux seen l → r ∈ l ∧ recKey r ∉ seen := by
  intro seen l
  induction l generalizing seen with
  | nil => intro r h; simp [dropDupAux] at h
  | cons x xs ih =>
    intro r h
    simp only [dropDupAux] at h
    by_cases hx : recKey x ∈ seen
    · rw [if_pos hx] at h
      have := ih h
      exact ⟨List.mem_cons_of_mem x this.1, this.2⟩
    · rw [if_neg hx] at h
      rcases List.mem_cons.1 h with rfl | h2
      · exact ⟨List.mem_cons_self r xs, hx⟩
      · have := ih h2
        refine ⟨List.mem_cons_of_mem x this.1, fun hc => this.2 ?_⟩
        exact List.mem_cons_of_mem _ hc

theorem nodup_keys_dropDupAux : ∀ (seen : List (String × String)) (l : List NormRecord),
    ((dropDupAux seen l).map recKey).Nodup := by
  intro seen l
  induction l generalizing seen with
  | nil => simp [dropDupAux]
  | cons x xs ih =>
    simp only [dropDupAux]
    by_cases hx : recKey x ∈ seen
    · simpa [if_pos hx] using ih seen
    · rw [if_neg hx]
      refine List.nodup_cons.2 ⟨?_, ih (recKey x :: seen)⟩
      intro hc
      rcases List.mem_map.1 hc with ⟨s, hs, hks⟩
      exact (mem_dropDupAux hs).2 (by simp [hks])

theorem find_first_dropDupAux : ∀ {seen : List (String × String)} {l : List NormRecord}
    {r : NormRecord}, r ∈ dropDupAux seen l → l.find? (fun s => sameKey s r) = some r := by
  intro seen l
  induction l generalizing seen with
  | nil => intro r h; simp [dropDupAux] at h
  | cons x xs ih =>
    intro r h
    simp only [dropDupAux] at h
    by_cases hx : recKey x ∈ seen
    · rw [if_pos hx] at h
      have hr := mem_dropDupAux h
      have hne : sameKey x r = false := by
        cases hk : sameKey x r
        · rfl
        · exact absurd (sameKey_iff.1 hk ▸ hx) hr.2
      rw [List.find?_cons_of_neg _ (by simp [hne])]
      exact ih h
    · rw [if_neg hx] at h
      rcases List.mem_cons.1 h with rfl | h2
      · rw [List.find?_cons_of_pos _ (by simp [sameKey_self])]
      · have hr := mem_dropDupAux h2
        have hne : sameKey x r = false := by
          cases hk : sameKey x r
          · rfl
          · exact absurd (by simp [← sameKey_iff.1 hk]) hr.2
        rw [List.find?_cons_of_neg _ (by simp [hne])]
        exact ih h2

theorem cover_dropDupAux : ∀ {seen : List (String × String)} {l : List NormRecord}
    {r : NormRecord}, r ∈ l →
    recKey r ∈ seen ∨ ∃ s ∈ dropDupAux seen l, recKey s = recKey r := by
  intro seen l
  induction l generalizing seen with
  | nil => intro r h; cases h
  | cons x xs ih =>
    intro r h
    simp only [dropDupAux]
    by_cases hx : recKey x ∈ seen
    · rw [if_pos hx]
      rcases List.mem_cons.1 h with rfl | h2
      · exact Or.inl hx
      · exact ih h2
    · rw [if_neg hx]
      rcases List.mem_cons.1 h with rfl | h2
      · exact Or.inr ⟨r, List.mem_cons_self r _, rfl⟩
      · rcases @ih (recKey x :: seen) r h2 with hs | ⟨s, hs, hks⟩
        · rcases List.mem_cons.1 hs with he | hs2
          · exact Or.inr ⟨x, List.mem_cons_self x _, he.symm⟩
          · exact Or.inl hs2
        · exact Or.inr ⟨s, List.mem_cons_of_mem x hs, hks⟩

theorem countKey_cons (x : NormRecord) (xs : List NormRecord) (r : NormRecord) :
    countKey (x :: xs) r = (if sameKey x r = true then 1 else 0) + countKey xs r := by
  simp only [countKey, List.filter_cons]
  cases h : sameKey x r
  · simp [h]
  · simp only [h, decide_True, if_true, List.length_cons]
    omega

theorem countKey_eq_zero {df : List NormRecord} {r : NormRecord}
    (h : ∀ s ∈ df, recKey s ≠ recKey r) : countKey df r = 0 := by
  simp only [countKey, List.length_eq_zero]
  rw [List.filter_eq_nil_iff]
  intro s hs hc
  exact h s hs (sameKey_iff.1 hc)

theorem countKey_pos_of_samekey {df : List NormRecord} {s r : NormRecord}
    (hs : s ∈ df) (hk : recKey s = recKey r) : 1 ≤ countKey df r := by
  have : s ∈ df.filter (fun t => sameKey t r) :=
    List.mem_filter.2 ⟨hs, sameKey_iff.2 hk⟩
  have := List.length_pos.2 (List.ne_nil_of_mem this)
  simpa [countKey] using this

theorem mem_findDuplicatesL {df : List NormRecord} {r : NormRecord} :
    r ∈ findDuplicatesL df ↔ r ∈ df ∧ 2 ≤ countKey df r := by
  simp [findDuplicatesL, List.mem_filter]

theorem countKey_le_one_of_nodup : ∀ {df : List NormRecord},
    (df.map recKey).Nodup → ∀ r : NormRecord, countKey df r ≤ 1 := by
  intro df
  induction df with
  | nil => intro _ r; simp [countKey]
  | cons x xs ih =>
    intro hnd r
    rw [List.map_cons] at hnd
    rcases List.nodup_cons.1 hnd with ⟨hxk, hnd2⟩
    rw [countKey_cons]
    cases h : sameKey x r with
    | false => simpa using ih hnd2 r
    | true =>
      have hzero : countKey xs r = 0 := by
        apply countKey_eq_zero
        intro s hs hc
        refine hxk ?_
        rw [sameKey_iff.1 h, ← hc]
        exact List.mem_map_of_mem recKey hs
      simp [hzero]

theorem nodup_keys_of_counts_le_one : ∀ {df : List NormRecord},
    (∀ r ∈ df, countKey df r ≤ 1) → (df.map recKey).Nodup := by
  intro df
  induction df with
  | nil => intro _; simp
  | cons x xs ih =>
    intro h
    rw [List.map_cons, List.nodup_cons]
    constructor
    · intro hc
      rcases List.mem_map.1 hc with ⟨s, hs, hks⟩
      have h1 : 1 ≤ countKey xs x := countKey_pos_of_samekey hs hks
      have h2 := h x (List.mem_cons_self x xs)
      rw [countKey_cons, sameKey_self] at h2
      simp at h2
      omega
    · refine ih ?_
      intro r hr
      have := h r (List.mem_cons_of_mem x hr)
      rw [countKey_cons] at this
      cases hx : sameKey x r <;> rw [hx] at this <;> simp at this <;> omega

theorem findDuplicatesL_eq_nil_of_nodup {df : List NormRecord}
    (h : (df.map recKey).Nodup) : findDuplicatesL df = [] := by
  rw [findDuplicatesL, List.filter_eq_nil_iff]
  intro r _
  have := countKey_le_one_of_nodup h r
  simp only [decide_eq_true_eq, not_le]
  omega

theorem nodup_keys_of_no_dups {df : List NormRecord}
    (h : findDuplicatesL df = []) : (df.map recKey).Nodup := by
  apply nodup_keys_of_counts_le_one
  intro r hr
  rw [findDuplicatesL, List.filter_eq_nil_iff] at h
  have := h r hr
  simp only [decide_eq_true_eq, not_le] at this
  omega

theorem dropDupAux_eq_self : ∀ {seen : List (String × String)} {l : List NormRecord},
    (l.map recKey).Nodup → (∀ r ∈ l, recKey r ∉ seen) → dropDupAux seen l = l := by
  intro seen l
  induction l generalizing seen with
  | nil => intro _ _; rfl
  | cons x xs ih =>
    intro hnd hdisj
    simp only [dropDupAux]
    rw [if_neg (hdisj x (List.mem_cons_self x xs))]
    congr 1
    rw [List.map_cons] at hnd
    rcases List.nodup_cons.1 hnd with ⟨hxk, hnd2⟩
    refine ih hnd2 ?_
    intro r hr hc
    rcases List.mem_cons.1 hc with he | hs
    · exact hxk (he ▸ List.mem_map_of_mem recKey hr)
    · exact hdisj r (List.mem_cons_of_mem x hr) hs

theorem dropDuplicatesL_eq_self_of_no_dups {df : List NormRecord}
    (h : findDuplicatesL df = []) : dropDuplicatesL df = df :=
  dropDupAux_eq_self (nodup_keys_of_no_dups h) (fun _ _ hc => absurd hc (List.not_mem_nil _))

theorem duplicateResolver_snd (df : List NormRecord) :
    (duplicateResolver df).2 = dropDuplicatesL df := by
  simp only [duplicateResolver]
  cases h : (findDuplicatesL df).isEmpty
  · simp [h]
  · simp only [h, if_true]
    exact (dropDuplicatesL_eq_self_of_no_dups (List.isEmpty_iff.1 h)).symm

theorem pdConcat_rows (a b : PdDataFrame) : (pdConcat a b).rows = a.rows ++ b.rows := rfl

theorem foldl_aggStep_rows (files : List UpFile) :
    ∀ (a b : PdDataFrame) (n : Nat),
      (files.foldl aggStep (a, b, n)).1.rows =
        a.rows ++ (files.filter (fun f => f.fmt == FileFmt.ris)).flatMap fileValidRows ∧
      (files.foldl aggStep (a, b, n)).2.1.rows =
        b.rows ++ (files.filter (fun f => f.fmt == FileFmt.bib)).flatMap fileValidRows := by
  induction files with
  | nil => intro a b n; simp
  | cons f fs ih =>
    intro a b n
    rw [List.foldl_cons]
    cases hf : f.fmt
    · have hstep : aggStep (a, b, n) f =
          (pdConcat a (parseRis [f.data]).1, b, n + (parseRis [f.data]).2) := by
        simp [aggStep, hf]
      rw [hstep]
      rcases ih (pdConcat a (parseRis [f.data]).1) b (n + (parseRis [f.data]).2) with ⟨h1, h2⟩
      constructor
      · rw [h1, pdConcat_rows]
        simp [List.filter_cons, hf, fileValidRows]
      · rw [h2]
        simp [List.filter_cons, hf]
    · have hstep : aggStep (a, b, n) f =
          (a, pdConcat b (parseBib [f.data]).1, n + (parseBib [f.data]).2) := by
        simp [aggStep, hf]
      rw [hstep]
      rcases ih a (pdConcat b (parseBib [f.data]).1) (n + (parseBib [f.data]).2) with ⟨h1, h2⟩
      constructor
      · rw [h1]
        simp [List.filter_cons, hf]
      · rw [h2, pdConcat_rows]
        simp [List.filter_cons, hf, fileValidRows]

theorem truthy_eq_true {o : Option String} (h : truthy o = true) :
    ∃ s, o = some s ∧ s ≠ "" := by
  cases o with
  | none => simp [truthy] at h
  | some s =>
    refine ⟨s, rfl, ?_⟩
    simp only [truthy, Bool.not_eq_true'] at h
    intro hc
    rw [(String.isEmpty_iff s).2 hc] at h
    cases h

theorem truthy_eq_false {o : Option String} (h : truthy o = false) :
    o = none ∨ o = some "" := by
  cases o with
  | none => exact Or.inl rfl
  | some s =>
    have he : s.isEmpty = true := by simpa [truthy] using h
    exact Or.inr (by rw [(String.isEmpty_iff s).1 he])

theorem pyInt_empty : pyInt "" = none := rfl

/-! ## The claims -/

/-- C1: the claim says a present but non-integer `year` is treated as
FieldMissing (record dropped and tallied, the rest of the file kept).
The code instead lets `int(year)` raise inside `filter_records`, and
`parse_ris` catches the `ValueError` at file scope: evaluated at a `.ris`
file whose first record is perfectly valid and whose second record has
year `"twenty twenty"`, the whole file contributes zero valid records and
zero to the invalid tally (only the following file survives). -/
theorem parseRis_bad_year_drops_whole_file :
    parseRis
      [.parsed [⟨some "Deep nets", some "portfolio optimization study", some "2021"⟩,
        ⟨some "B", some "C", some "twenty twenty"⟩],
       .parsed [⟨some "Other", some "optimization", some "2020"⟩]] =
      (pdOfRecords [⟨"Other", "optimization", 2020⟩], 0) := rfl

/-- C2: the claim says zero valid records lead to stages 3–5 being
skipped and a normal all-zero report.  In the code `find_duplicates` is
called unconditionally, and with zero valid records `combined_df` is a
column-less empty frame, so `df.duplicated(subset=['Título','Resumen'])`
raises an uncaught `KeyError`: the run aborts instead of completing (for
any score function and threshold, which are never reached). -/
theorem mainFlow_zero_valid_raises_keyerror {α : Type} [LinearOrder α]
    (score : String → String → Except String α) (threshold : α) :
    mainFlow score threshold
        [⟨.ris, .parsed [⟨none, some "An abstract", some "2021"⟩]⟩] =
      .error "KeyError: Index(['Título', 'Resumen'], dtype='object')" := rfl

/-- C3 (counterexample): a `.bib` file uploaded before a `.ris` file.
Arrival order would list the `.bib` record first, but the aggregated
collection handed to the Duplicate Resolver lists the `.ris` record
first, because the main loop accumulates the two formats in separate
frames and concatenates `valid_ris_df` before `valid_bib_df`. -/
theorem aggregate_order_counterexample :
    (aggregate
        [⟨.bib, .parsed [⟨some "Bstudy", some "portfolio themes", some "2020"⟩]⟩,
         ⟨.ris, .parsed [⟨some "Astudy", some "optimization themes", some "2019"⟩]⟩]).1.rows ≠
      arrivalOrderRows
        [⟨.bib, .parsed [⟨some "Bstudy", some "portfolio themes", some "2020"⟩]⟩,
         ⟨.ris, .parsed [⟨some "Astudy", some "optimization themes", some "2019"⟩]⟩] := by
  decide

/-- C3 (amended): the aggregated collection is grouped by format — all
valid records of `.ris` files (files in arrival order, in-file parser
order preserved) precede all valid records of `.bib` files (likewise);
only within each format group is file arrival order preserved. -/
theorem aggregate_rows_format_grouped (files : List UpFile) :
    (aggregate files).1.rows =
      (files.filter (fun f => f.fmt == FileFmt.ris)).flatMap fileValidRows ++
      (files.filter (fun f => f.fmt == FileFmt.bib)).flatMap fileValidRows := by
  rcases foldl_aggStep_rows files pdEmpty pdEmpty 0 with ⟨h1, h2⟩
  simp only [aggregate, pdConcat_rows, h1, h2]
  simp [pdEmpty]

/-- C5: selection correctness — the Selection Filter returns exactly the
input records whose `Resumen` contains "portfolio" or "optimization"
case-insensitively and whose `Fecha` lies in `[2017, 2024]`, in input
order (for any frame row type with these two columns). -/
theorem applySelectionCriteria_correct {ρ : Type} (resumenOf : ρ → String)
    (fechaOf : ρ → Int) (df : List ρ) :
    applySelectionCriteria resumenOf fechaOf df =
      df.filter (fun r => keywordPred (resumenOf r) && datePred (fechaOf r)) ∧
    ∀ r, r ∈ applySelectionCriteria resumenOf fechaOf df ↔
      r ∈ df ∧
        (containsCI (resumenOf r) "portfolio" = true ∨
          containsCI (resumenOf r) "optimization" = true) ∧
        (2017 ≤ fechaOf r ∧ fechaOf r ≤ 2024) := by
  have h1 : applySelectionCriteria resumenOf fechaOf df =
      df.filter (fun r => keywordPred (resumenOf r) && datePred (fechaOf r)) := by
    simp only [applySelectionCriteria]
    rw [List.filter_filter]
    apply List.filter_congr
    intro x _
    rw [Bool.and_comm]
  refine ⟨h1, ?_⟩
  intro r
  rw [h1, List.mem_filter]
  simp [keywordPred, datePred, and_assoc]

/-- C6: the Duplicate Resolver's `duplicateGroup` holds exactly the
records whose (`Título`, `Resumen`) key — exact, case-sensitive equality —
occurs at least twice in the input (every participant of every duplicate
set), and its `deduplicated` output holds exactly one record per distinct
key, namely the first occurrence in input order (it is a subsequence of
the input whose keys are pairwise distinct, each member is the first
input record with its key, and every input key is represented). -/
theorem duplicateResolver_correct (df : List NormRecord) :
    (∀ r, r ∈ (duplicateResolver df).1 ↔ r ∈ df ∧ 2 ≤ countKey df r) ∧
    ((duplicateResolver df).2.map recKey).Nodup ∧
    (∀ r ∈ (duplicateResolver df).2, df.find? (fun s => sameKey s r) = some r) ∧
    (∀ r ∈ df, ∃ s ∈ (duplicateResolver df).2, recKey s = recKey r) ∧
    (duplicateResolver df).2.Sublist df := by
  have hfst : (duplicateResolver df).1 = findDuplicatesL df := rfl
  rw [hfst, duplicateResolver_snd]
  refine ⟨fun r => mem_findDuplicatesL, nodup_keys_dropDupAux [] df, ?_, ?_,
    dropDupAux_sublist [] df⟩
  · intro r hr
    exact find_first_dropDupAux hr
  · intro r hr
    rcases @cover_dropDupAux [] df r hr with hs | h
    · exact absurd hs (List.not_mem_nil _)
    · exact h

/-- C9: applying the Duplicate Resolver to the `deduplicated` output of a
first application yields an empty `duplicateGroup` and returns that
collection unchanged. -/
theorem duplicateResolver_idempotent (df : List NormRecord) :
    (duplicateResolver (duplicateResolver df).2).1 = [] ∧
    (duplicateResolver (duplicateResolver df).2).2 = (duplicateResolver df).2 := by
  rw [duplicateResolver_snd]
  have hdup : findDuplicatesL (dropDuplicatesL df) = [] :=
    findDuplicatesL_eq_nil_of_nodup (nodup_keys_dropDupAux [] df)
  constructor
  · exact hdup
  · simp [duplicateResolver, hdup]

/-- C7: when `filter_records` completes, every record of the valid
collection has a non-empty title, a non-empty abstract, and an integer
year obtained from a source record carrying exactly those fields; and
every record of the invalid collection lacks a truthy title, lacks a
truthy abstract, or has no integer-convertible year value. -/
theorem filterRecords_valid_invalid (rs : List RawRecord) (v : List NormRecord)
    (inv : List RawRecord) (h : filterRecords rs = .ok (v, inv)) :
    (∀ n ∈ v, n.titulo ≠ "" ∧ n.resumen ≠ "" ∧
      ∃ r ∈ rs, r.title = some n.titulo ∧ r.abstract = some n.resumen ∧
        ∃ ys, r.year = some ys ∧ pyInt ys = some n.fecha) ∧
    (∀ r ∈ inv, truthy r.title = false ∨ truthy r.abstract = false ∨
      ∀ ys, r.year = some ys → pyInt ys = none) := by
  induction rs generalizing v inv with
  | nil =>
    simp only [filterRecords] at h
    cases h
    exact ⟨fun x hx => absurd hx (List.not_mem_nil _),
           fun x hx => absurd hx (List.not_mem_nil _)⟩
  | cons r rs ih =>
    simp only [filterRecords] at h
    by_cases ht : (truthy r.title && truthy r.abstract && truthy r.year) = true
    · rw [if_pos ht] at h
      cases hp : pyInt (r.year.getD "") with
      | none => rw [hp] at h; cases h
      | some n =>
        rw [hp] at h
        cases hrest : filterRecords rs with
        | error e => rw [hrest] at h; cases h
        | ok p =>
          rw [hrest] at h
          injection h with h'
          injection h' with h1 h2
          subst h1
          subst h2
          have ihh := ih p.1 p.2 (by rw [hrest])
          have ht3 : (truthy r.title = true ∧ truthy r.abstract = true) ∧
              truthy r.year = true := by
            simpa [Bool.and_eq_true] using ht
          rcases truthy_eq_true ht3.1.1 with ⟨st, hst, hstne⟩
          rcases truthy_eq_true ht3.1.2 with ⟨sa, hsa, hsane⟩
          rcases truthy_eq_true ht3.2 with ⟨sy, hsy, _⟩
          constructor
          · intro m hm
            rcases List.mem_cons.1 hm with rfl | hm2
            · refine ⟨by simp [hst, hstne], by simp [hsa, hsane],
                r, List.mem_cons_self r rs, by simp [hst], by simp [hsa], sy, hsy, ?_⟩
              rw [hsy] at hp
              simpa using hp
            · rcases ihh.1 m hm2 with ⟨hm1, hm2', s, hs, hrest'⟩
              exact ⟨hm1, hm2', s, List.mem_cons_of_mem r hs, hrest'⟩
          · intro x hx
            exact ihh.2 x hx
    · rw [if_neg ht] at h
      cases hrest : filterRecords rs with
      | error e => rw [hrest] at h; cases h
      | ok p =>
        rw [hrest] at h
        injection h with h'
        injection h' with h1 h2
        subst h1
        subst h2
        have ihh := ih p.1 p.2 (by rw [hrest])
        constructor
        · intro m hm
          rcases ihh.1 m hm with ⟨hm1, hm2', s, hs, hrest'⟩
          exact ⟨hm1, hm2', s, List.mem_cons_of_mem r hs, hrest'⟩
        · intro x hx
          rcases List.mem_cons.1 hx with rfl | hx2
          · cases h1 : truthy x.title with
            | false => exact Or.inl rfl
            | true =>
              cases h2 : truthy x.abstract with
              | false => exact Or.inr (Or.inl rfl)
              | true =>
                cases h3 : truthy x.year with
                | true => exact absurd (by simp [h1, h2, h3]) ht
                | false =>
                  refine Or.inr (Or.inr ?_)
                  intro ys hys
                  rcases truthy_eq_false h3 with hn | he
                  · rw [hn] at hys; cases hys
                  · rw [he] at hys
                    injection hys with hy
                    rw [← hy]
                    exact pyInt_empty
          · exact ihh.2 x hx2

/-- C4 (counterexample): a record whose title and abstract consist only
of English stop words shares zero non-stopword terms between the two, yet
the scorer does not assign similarity 0 — `fit_transform` raises the
sklearn `ValueError` for an empty vocabulary, so the claim's "rather than
failing" is false at this input. -/
theorem similarityPair_stopwords_raises :
    similarityPair "the" "of" =
      .error "ValueError: empty vocabulary; perhaps the documents only contain stop words" := rfl

/-- C4 (amended): if title and abstract share zero non-stopword terms
and at least one of the two has an in-vocabulary term, the computed
similarity is exactly 0 (the exact numerator of the cosine vanishes, so
for any positive threshold the record falls in the `similarity <
threshold` partition); if neither document has an in-vocabulary term the
vectorizer instead raises the empty-vocabulary `ValueError`. -/
theorem similarity_no_shared_terms (t a : String) :
    (sharedVocab t a = [] → (analyzedTokens t ≠ [] ∨ analyzedTokens a ≠ []) →
      ∃ c, similarityPair t a = .ok c ∧ c.num = 0) ∧
    (analyzedTokens t = [] → analyzedTokens a = [] →
      similarityPair t a =
        .error "ValueError: empty vocabulary; perhaps the documents only contain stop words") := by
  constructor
  · intro hsh hv
    have htok : ∀ x, x ∈ analyzedTokens t → x ∈ analyzedTokens a → False := by
      intro x hxt hxa
      have hxd : x ∈ (analyzedTokens t).dedup := List.mem_dedup.2 hxt
      have hmem : x ∈ sharedVocab t a :=
        List.mem_filter.2 ⟨hxd, List.elem_iff.2 hxa⟩
      rw [hsh] at hmem
      exact absurd hmem (List.not_mem_nil x)
    have hvne : sortStrings (([t, a].map analyzedTokens).flatten.dedup) ≠ [] := by
      intro hc
      rw [sortStrings_eq_nil_iff] at hc
      simp only [List.map_cons, List.map_nil, List.flatten_cons, List.flatten_nil,
        List.append_nil, List.dedup_eq_nil] at hc
      rcases List.append_eq_nil.1 hc with ⟨h1, h2⟩
      rcases hv with h | h
      · exact h h1
      · exact h h2
    have hempty : (sortStrings (([t, a].map analyzedTokens).flatten.dedup)).isEmpty = false := by
      cases h : (sortStrings (([t, a].map analyzedTokens).flatten.dedup)).isEmpty
      · rfl
      · exact absurd (List.isEmpty_iff.1 h) hvne
    simp only [similarityPair, fitTransform, hempty, Bool.false_eq_true, if_false]
    refine ⟨_, rfl, ?_⟩
    simp only [cosineTA, List.map_cons, List.map_nil, List.getD_cons_zero,
      List.getD_cons_succ, List.zip_map', List.map_map, Function.comp]
    apply List.sum_eq_zero
    intro y hy
    rcases List.mem_map.1 hy with ⟨x, hx, rfl⟩
    have hxm : x ∈ analyzedTokens t ∨ x ∈ analyzedTokens a := by
      have := List.mem_dedup.1 (mem_sortStrings.1 hx)
      simpa [List.mem_append] using this
    simp only [Function.comp_apply]
    rcases hxm with hxt | hxa
    · rw [List.count_eq_zero.2 (fun hxa => htok x hxt hxa)]
      exact mul_zero _
    · rw [List.count_eq_zero.2 (fun hxt => htok x hxt hxa)]
      exact zero_mul _
  · intro h1 h2
    simp [similarityPair, fitTransform, h1, h2, sortStrings]

/-- C4 (witness): the amended theorem at a record with disjoint
non-stopword vocabularies, and at the all-stopword record. -/
theorem similarity_no_shared_terms_witness :
    (∃ c, similarityPair "apple" "banana" = .ok c ∧ c.num = 0) ∧
      similarityPair "the" "of" =
        .error "ValueError: empty vocabulary; perhaps the documents only contain stop words" :=
  ⟨(similarity_no_shared_terms "apple" "banana").1 (by decide) (Or.inl (by decide)),
   (similarity_no_shared_terms "the" "of").2 (by decide) (by decide)⟩

/-- C7 (witness): the theorem applied to a one-record input whose title
is absent. -/
theorem filterRecords_valid_invalid_witness :
    filterRecords [⟨none, some "A", some "2021"⟩] =
        .ok ([], [⟨none, some "A", some "2021"⟩]) ∧
      ((∀ n ∈ ([] : List NormRecord), n.titulo ≠ "" ∧ n.resumen ≠ "" ∧
          ∃ r ∈ [RawRecord.mk none (some "A") (some "2021")], r.title = some n.titulo ∧
            r.abstract = some n.resumen ∧ ∃ ys, r.year = some ys ∧ pyInt ys = some n.fecha) ∧
        (∀ r ∈ [RawRecord.mk none (some "A") (some "2021")], truthy r.title = false ∨
          truthy r.abstract = false ∨ ∀ ys, r.year = some ys → pyInt ys = none)) :=
  ⟨rfl, filterRecords_valid_invalid _ _ _ rfl⟩

/-- C8: when `check_similarity` completes, its two outputs partition the
scored input — the lengths add up to the input length, the incoherent
side is exactly the scored records with `Similitud < threshold`, the
coherent side exactly those with `threshold ≤ Similitud` (the boundary on
the coherent side), for any score representation and any threshold. -/
theorem checkSimilarityWith_partitions {α : Type} [LinearOrder α]
    (score : String → String → Except String α) (threshold : α)
    (df : List NormRecord) (incoherent coherent : List (NormRecord × α))
    (h : checkSimilarityWith score threshold df = .ok (incoherent, coherent)) :
    incoherent.length + coherent.length = df.length ∧
    ∃ sims, scoreRows score df = .ok sims ∧
      incoherent = (df.zip sims).filter (fun p => decide (p.2 < threshold)) ∧
      coherent = (df.zip sims).filter (fun p => decide (threshold ≤ p.2)) ∧
      ∀ p ∈ df.zip sims,
        (p ∈ incoherent ↔ p.2 < threshold) ∧ (p ∈ coherent ↔ threshold ≤ p.2) := by
  cases hs : scoreRows score df with
  | error e =>
    simp only [checkSimilarityWith, hs] at h
    cases h
  | ok sims =>
    simp only [checkSimilarityWith, hs] at h
    injection h with h'
    injection h' with h1 h2
    subst h1
    subst h2
    have hlen : sims.length = df.length := exceptMapM_ok_length _ hs
    have hz : (df.zip sims).length = df.length := by
      rw [List.length_zip, hlen, min_self]
    refine ⟨?_, sims, rfl, rfl, rfl, ?_⟩
    · have hpart := length_filter_add_length_filter_not (df.zip sims)
        (fun p => decide (p.2 < threshold))
      have hpred : ∀ p ∈ df.zip sims,
          (!(decide (p.2 < threshold))) = decide (threshold ≤ p.2) := by
        intro p _
        by_cases hc : p.2 < threshold
        · simp [hc, not_le.2 hc]
        · simp [hc, not_lt.1 hc]
      rw [List.filter_congr hpred] at hpart
      rw [hz] at hpart
      exact hpart
    · intro p hp
      exact ⟨⟨fun hpin => of_decide_eq_true (List.mem_filter.1 hpin).2,
              fun hlt => List.mem_filter.2 ⟨hp, decide_eq_true hlt⟩⟩,
             ⟨fun hpin => of_decide_eq_true (List.mem_filter.1 hpin).2,
              fun hle => List.mem_filter.2 ⟨hp, decide_eq_true hle⟩⟩⟩

/-- C8 (witness): the theorem at a one-record frame with an integer
score representation, score 0 and threshold 1 — the record lands in the
incoherent side. -/
theorem checkSimilarityWith_partitions_witness :
    checkSimilarityWith (fun _ _ => Except.ok (0 : ℤ)) (1 : ℤ)
        [⟨"Portfolio Optimization", "portfolio study", 2021⟩] =
      .ok ([(⟨"Portfolio Optimization", "portfolio study", 2021⟩, (0 : ℤ))], []) ∧
    (([((⟨"Portfolio Optimization", "portfolio study", 2021⟩ : NormRecord), (0 : ℤ))].length +
        ([] : List (NormRecord × ℤ)).length =
          [(⟨"Portfolio Optimization", "portfolio study", 2021⟩ : NormRecord)].length) ∧
      ∃ sims, scoreRows (fun _ _ => Except.ok (0 : ℤ))
          [⟨"Portfolio Optimization", "portfolio study", 2021⟩] = .ok sims ∧
        [((⟨"Portfolio Optimization", "portfolio study", 2021⟩ : NormRecord), (0 : ℤ))] =
          ([(⟨"Portfolio Optimization", "portfolio study", 2021⟩ : NormRecord)].zip sims).filter
            (fun p => decide (p.2 < (1 : ℤ))) ∧
        ([] : List (NormRecord × ℤ)) =
          ([(⟨"Portfolio Optimization", "portfolio study", 2021⟩ : NormRecord)].zip sims).filter
            (fun p => decide ((1 : ℤ) ≤ p.2)) ∧
        ∀ p ∈ [(⟨"Portfolio Optimization", "portfolio study", 2021⟩ : NormRecord)].zip sims,
          (p ∈ [((⟨"Portfolio Optimization", "portfolio study", 2021⟩ : NormRecord), (0 : ℤ))] ↔
            p.2 < (1 : ℤ)) ∧
          (p ∈ ([] : List (NormRecord × ℤ)) ↔ (1 : ℤ) ≤ p.2)) :=
  ⟨rfl, checkSimilarityWith_partitions _ _ _ _ _ rfl⟩

/-- C10: the scoring loop of `check_similarity`, although it reuses one
vectorizer object refitted at each iteration, computes the same result as
mapping the pure per-record function (title, abstract) → similarity over
the collection, for every starting vectorizer state: each record's score
depends only on that record's own two texts. -/
theorem similaritiesLoop_eq_map (vz : VectorizerState) (rs : List NormRecord) :
    similaritiesLoop vz rs = similaritiesMap rs := by
  induction rs generalizing vz with
  | nil => rfl
  | cons r rs ih =>
    show similaritiesLoop vz (r :: rs) =
      (r :: rs).mapM (fun q => similarityPair q.titulo q.resumen)
    rw [exceptMapM_cons]
    have hstep : similaritiesLoop vz (r :: rs) =
        match fitTransform newVectorizer [r.titulo, r.resumen] with
        | .error e => .error e
        | .ok (vz2, m) =>
          match similaritiesLoop vz2 rs with
          | .error e => .error e
          | .ok rest => .ok (cosineTA m :: rest) := rfl
    rw [hstep]
    cases hf : fitTransform newVectorizer [r.titulo, r.resumen] with
    | error e =>
      rw [show similarityPair r.titulo r.resumen = .error e by rw [similarityPair, hf]]
    | ok p =>
      obtain ⟨vz2, m⟩ := p
      rw [show similarityPair r.titulo r.resumen = .ok (cosineTA m) by
        rw [similarityPair, hf]]
      have hloop : similaritiesLoop vz2 rs =
          rs.mapM (fun q => similarityPair q.titulo q.resumen) := ih vz2
      cases hm : rs.mapM (fun q => similarityPair q.titulo q.resumen) with
      | error e2 =>
        rw [hm] at hloop
        simp only [hloop]
      | ok ys =>
        rw [hm] at hloop
        simp only [hloop]
